import Mathlib

/-!
Verification development for the OpenEVSE load-sharing peer coordination
firmware.  The definitions below are a shallow embedding of the C++ sources:

* `src/loadsharing_discovery_task.cpp` — background mDNS discovery task,
  configured group-peer registry, durable persistence of the peer list;
* `web_server_loadsharing.cpp` — HTTP handlers for the
  peer-management endpoints backed by `loadSharingDiscoveryTask`.

Machine integers (`unsigned long` timestamps from `millis()`) are modelled as
`Nat` reduced modulo `2 ^ 32` where the code relies on wrap-around
subtraction.  Arduino `String` values are modelled as Lean `String`
(Arduino `operator==` is exact byte comparison).  Fallible environment
effects (file-system writes, mDNS query startup, query polling) are passed
in explicitly as arguments.
-/

namespace OpenEVSE

/-- 2 ^ 32, the modulus of `unsigned long` arithmetic on the ESP32. -/
def U32 : Nat := 2 ^ 32

/-- Wrap-around unsigned subtraction `a - b` as computed on 32-bit
`unsigned long` values, e.g. `millis() - _lastDiscovery`. -/
def usub (a b : Nat) : Nat := (a % U32 + (U32 - b % U32)) % U32

/-! ## Configured group-peer registry

State owned by `LoadSharingDiscoveryTask`: the operator-configured list of
peer hostnames (`_groupPeers`) and the dirty flag guarding persistence
(`_groupPeersDirty`). -/

structure Registry where
  groupPeers : List String
  groupPeersDirty : Bool
deriving DecidableEq

/-- `LoadSharingDiscoveryTask::saveGroupPeers`, abstracted over the file
system: when the registry is not dirty it returns `true` without touching
storage; otherwise it performs the temp-write plus rename sequence whose
overall success is the environment input `saveOk`, and clears the dirty
flag only on success. -/
def saveGroupPeers (st : Registry) (saveOk : Bool) : Registry × Bool :=
  if !st.groupPeersDirty then (st, true)
  else if saveOk then ({ st with groupPeersDirty := false }, true)
  else (st, false)

/-- `LoadSharingDiscoveryTask::addGroupPeer`: reject an exact duplicate,
otherwise append the hostname, mark dirty and call `saveGroupPeers`.  The
result of `saveGroupPeers` is discarded; the function returns `true`
whenever the hostname was not already present. -/
def addGroupPeer (st : Registry) (hostname : String) (saveOk : Bool) :
    Registry × Bool :=
  if st.groupPeers.contains hostname then (st, false)
  else
    let st1 : Registry := { groupPeers := st.groupPeers ++ [hostname], groupPeersDirty := true }
    let st2 := (saveGroupPeers st1 saveOk).1
    (st2, true)

/-- Remove the first exact match from a list of hostnames; `none` when no
entry matches.  This is the scan-erase loop of
`LoadSharingDiscoveryTask::removeGroupPeer`. -/
def eraseFirst : List String → String → Option (List String)
  | [], _ => none
  | p :: rest, h =>
    if p = h then some rest
    else (eraseFirst rest h).map (fun l => p :: l)

/-- `LoadSharingDiscoveryTask::removeGroupPeer`: erase the first exact
match, mark dirty and call `saveGroupPeers` (result again discarded);
return `false` when nothing matched. -/
def removeGroupPeer (st : Registry) (hostname : String) (saveOk : Bool) :
    Registry × Bool :=
  match eraseFirst st.groupPeers hostname with
  | none => (st, false)
  | some l =>
    let st1 : Registry := { groupPeers := l, groupPeersDirty := true }
    let st2 := (saveGroupPeers st1 saveOk).1
    (st2, true)

/-! ## HTTP peer-management handlers -/

/-- An HTTP response: status code and the `msg` field of the JSON body. -/
structure HttpResponse where
  code : Nat
  msg : String
deriving DecidableEq

/-- Outcome of parsing the POST body: invalid JSON, JSON without a `host`
key, or a `host` string value. -/
inductive PostBody
  | invalidJson
  | missingHost
  | host (h : String)
deriving DecidableEq

/-- Characters removed by Arduino `String::trim` (C `isspace`):
space and the control characters 0x09 through 0x0D. -/
def isSpaceChar (c : Char) : Bool := c = ' ' || (9 ≤ c.toNat && c.toNat ≤ 13)

/-- Arduino `String::trim`: strip leading and trailing whitespace. -/
def trimString (s : String) : String :=
  String.mk (((s.toList.dropWhile isSpaceChar).reverse.dropWhile isSpaceChar).reverse)

/-- The handler's host validity check:
`host.indexOf('.') != -1 || host.indexOf(':') != -1`. -/
def hostHasDotOrColon (h : String) : Bool :=
  h.toList.contains '.' || h.toList.contains ':'

/-- `handleLoadSharingPeersPost`: parse the body, trim the host, reject an
empty host, reject a host containing neither `.` nor `:`, then call
`addGroupPeer` (which rejects duplicates and persists); answer 200 `done`
on success.  `saveOk` is the file system's answer to the durable save. -/
def handleLoadSharingPeersPost (st : Registry) (body : PostBody) (saveOk : Bool) :
    Registry × HttpResponse :=
  match body with
  | .invalidJson => (st, ⟨400, "Invalid JSON"⟩)
  | .missingHost => (st, ⟨400, "Missing required host parameter"⟩)
  | .host h0 =>
    let host := trimString h0
    if host.isEmpty then (st, ⟨400, "Host cannot be empty"⟩)
    else if !hostHasDotOrColon host then
      (st, ⟨400, "Invalid host format - must contain domain or IP"⟩)
    else
      let r := addGroupPeer st host saveOk
      if !r.2 then (r.1, ⟨400, "Peer already in group"⟩)
      else (r.1, ⟨200, "done"⟩)

/-- `handleLoadSharingPeersDeleteWithHost`: remove the peer via
`removeGroupPeer`; 404 when absent, 200 `done` when removed. -/
def handleLoadSharingPeersDeleteWithHost (st : Registry) (host : String) (saveOk : Bool) :
    Registry × HttpResponse :=
  let r := removeGroupPeer st host saveOk
  if !r.2 then (r.1, ⟨404, "Peer not found"⟩)
  else (r.1, ⟨200, "done"⟩)

/-- Case-insensitive host equality — the comparison the specification
prescribes for `Remove(host)` (the code instead compares exactly). -/
def hostEqCaseInsensitive (a b : String) : Bool :=
  a.toList.map Char.toLower == b.toList.map Char.toLower

/-! ## Durable write of the peer list, at file-system granularity

`saveGroupPeers` touches exactly two paths: the live file
`/loadsharing_peers.json` and the sibling temp file
`/loadsharing_peers.json.tmp`.  `FsState` records the complete document
each path currently holds (`none` = the path does not exist).  The body of
`saveGroupPeers` is the sequence of file-system mutations below; a power
loss may strike after any prefix of the sequence. -/

structure FsState where
  live : Option (List String)
  tmp : Option (List String)
deriving DecidableEq

/-- One file-system mutation performed by `saveGroupPeers`. -/
inductive SaveOp
  /-- Open the temp path for writing and serialize the document into it. -/
  | writeTmp (doc : List String)
  /-- `LittleFS.remove(filePath)` on the live path. -/
  | removeLive
  /-- `LittleFS.rename(tempPath, filePath)`. -/
  | renameTmpToLive
deriving DecidableEq

def applySaveOp (fs : FsState) : SaveOp → FsState
  | .writeTmp doc => { fs with tmp := some doc }
  | .removeLive => { fs with live := none }
  | .renameTmpToLive => { live := fs.tmp, tmp := none }

/-- The mutation sequence of `LoadSharingDiscoveryTask::saveGroupPeers`
when the registry is dirty: write the whole document to the temp path,
remove the live path if it exists, then rename the temp path over the live
path. -/
def saveGroupPeersOps (doc : List String) (liveExists : Bool) : List SaveOp :=
  [.writeTmp doc] ++ (if liveExists then [.removeLive] else []) ++ [.renameTmpToLive]

/-- The file-system state reached after the first `n` mutations of a save
of `doc`, starting from `fs` — i.e. the state a power loss at that point
would leave behind. -/
def saveCrashState (fs : FsState) (doc : List String) (n : Nat) : FsState :=
  ((saveGroupPeersOps doc fs.live.isSome).take n).foldl applySaveOp fs

/-! ## Background discovery task

State of `LoadSharingDiscoveryTask` (cache, schedule and async-query
fields), its `loop` body, and the cache accessors.  `millis()` readings
and the outcomes of the asynchronous mDNS API are inputs. -/

/-- A discovered peer as cached by the task (`DiscoveredPeer`). -/
structure DiscoveredPeer where
  hostname : String
  serviceName : String
  ipAddress : String
  port : Nat
  txtRecords : List (String × String)
  discoveredAt : Nat
deriving DecidableEq

/-- One entry of the `mdns_result_t` linked list returned by a completed
query. -/
structure MdnsResult where
  instance_name : Option String
  hostname : Option String
  ip4 : Option Nat
  port : Nat
  txt : List (String × String)
deriving DecidableEq

/-- Decimal dotted-quad rendering of the little-endian 32-bit address
word, as built by the handler: `ip & 0xFF`, `(ip >> 8) & 0xFF`, ... -/
def ipToString (ip : Nat) : String :=
  toString (ip % 256) ++ "." ++ toString (ip / 256 % 256) ++ "." ++
    toString (ip / 65536 % 256) ++ "." ++ toString (ip / 16777216 % 256)

/-- `suffix` is a suffix of `s` (Arduino `String::endsWith`). -/
def strEndsWith (s suffix : String) : Bool :=
  suffix.toList.isSuffixOf s.toList

/-- Build a `DiscoveredPeer` from one mDNS result, following
`pollAsyncQuery`: prefer the instance name (plus `.local`), fall back to
the host name (appending `.local` when missing), and skip the record when
it names neither. -/
def mkPeer (now : Nat) (r : MdnsResult) : Option DiscoveredPeer :=
  match r.instance_name with
  | some n =>
    some { hostname := n ++ ".local", serviceName := n,
           ipAddress := (r.ip4.map ipToString).getD "", port := r.port,
           txtRecords := r.txt, discoveredAt := now }
  | none =>
    match r.hostname with
    | some h =>
      some { hostname := if strEndsWith h ".local" then h else h ++ ".local",
             serviceName := h,
             ipAddress := (r.ip4.map ipToString).getD "", port := r.port,
             txtRecords := r.txt, discoveredAt := now }
    | none => none

/-- The result-conversion loop of `pollAsyncQuery`: walk the result list,
skip records without a hostname, skip records whose hostname was already
seen, and keep the rest in order. -/
def dedupByHostname (now : Nat) : List MdnsResult → List String → List DiscoveredPeer
  | [], _ => []
  | r :: rest, seen =>
    match mkPeer now r with
    | none => dedupByHostname now rest seen
    | some p =>
      if seen.contains p.hostname then dedupByHostname now rest seen
      else p :: dedupByHostname now rest (p.hostname :: seen)

/-- State of `LoadSharingDiscoveryTask` relevant to the discovery loop. -/
structure DiscTaskState where
  cachedPeers : List DiscoveredPeer
  lastDiscovery : Nat
  cacheTtl : Nat
  cacheValid : Bool
  poll_interval_ms : Nat
  discovery_interval_ms : Nat
  last_discovery_time : Nat
  query_timeout_ms : Nat
  /-- `_active_query != nullptr`. -/
  active_query : Bool
  query_start_time : Nat
  query_in_progress : Bool
  discovery_count : Nat
  last_result_count : Nat
deriving DecidableEq

/-- What `mdns_query_async_get_results` reports on one poll: still
pending, or complete with a (possibly empty) result list. -/
inductive QueryPollOutcome
  | pending
  | complete (results : List MdnsResult)
deriving DecidableEq

/-- `LoadSharingDiscoveryTask::pollAsyncQuery`: `false` immediately when
no query handle is active; otherwise, on completion, convert and
deduplicate the results and swap them into the cache together with a
fresh timestamp. -/
def pollAsyncQuery (st : DiscTaskState) (now : Nat) (outcome : QueryPollOutcome) :
    DiscTaskState × Bool :=
  if !st.active_query then (st, false)
  else
    match outcome with
    | .pending => (st, false)
    | .complete results =>
      let peers := dedupByHostname now results []
      ({ st with cachedPeers := peers, lastDiscovery := now, cacheValid := true,
                 last_result_count := peers.length }, true)

/-- `LoadSharingDiscoveryTask::cleanupQuery`: drop the query handle and
clear the in-progress flag; the cache is untouched. -/
def cleanupQuery (st : DiscTaskState) : DiscTaskState :=
  { st with active_query := false, query_in_progress := false }

/-- `LoadSharingDiscoveryTask::startAsyncQuery`: `startOk` is whether
`mdns_query_async_new` returned a handle. -/
def startAsyncQuery (st : DiscTaskState) (now : Nat) (startOk : Bool) : DiscTaskState :=
  if startOk then
    { st with active_query := true, query_in_progress := true, query_start_time := now }
  else
    { st with active_query := false, query_in_progress := false }

/-- One pass of `LoadSharingDiscoveryTask::loop`: poll an in-flight query
(handling completion and timeout), otherwise start a new query when the
discovery interval has elapsed or no discovery ever ran; always return
`_poll_interval_ms` as the next wake delay. -/
def loop (st : DiscTaskState) (now : Nat) (outcome : QueryPollOutcome) (startOk : Bool) :
    DiscTaskState × Nat :=
  let st1 :=
    if st.query_in_progress then
      let pr := pollAsyncQuery st now outcome
      if pr.2 then
        { pr.1 with query_in_progress := false, active_query := false }
      else if usub now pr.1.query_start_time > pr.1.query_timeout_ms then
        cleanupQuery pr.1
      else pr.1
    else
      if usub now st.last_discovery_time ≥ st.discovery_interval_ms
          || st.last_discovery_time == 0 then
        let st' := startAsyncQuery st now startOk
        { st' with last_discovery_time := now,
                   discovery_count := st'.discovery_count + 1 }
      else st
  (st1, st1.poll_interval_ms)

/-- `LoadSharingDiscoveryTask::triggerDiscovery`: reset the discovery
timer so the next wake starts a query immediately (the task is also woken;
scheduling is outside this model). -/
def triggerDiscovery (st : DiscTaskState) : DiscTaskState :=
  { st with last_discovery_time := 0 }

/-- `LoadSharingDiscoveryTask::isCacheValid` at a fixed `millis()`
reading `now`. -/
def isCacheValid (st : DiscTaskState) (now : Nat) : Bool :=
  if !st.cacheValid then false
  else decide (usub now st.lastDiscovery < st.cacheTtl)

/-- `LoadSharingDiscoveryTask::cacheTimeRemaining` at a fixed `millis()`
reading `now`. -/
def cacheTimeRemaining (st : DiscTaskState) (now : Nat) : Nat :=
  if !st.cacheValid then 0
  else
    let elapsed := usub now st.lastDiscovery
    if elapsed ≥ st.cacheTtl then 0
    else st.cacheTtl - elapsed

/-! ## Allocator (Equal-Share-With-Minimums)

Modelled from the spec: the allocation algorithm
(`src/loadsharing_algorithm.h/cpp`, planned as Phase 3.1 of
`docs/IMPLEMENTATION_PLAN.md`) is not present under `src/`; only its data
types and callers are.  The definitions below follow the spec's §4.4
algorithm and §Numeric semantics word for word: all currents live on the
0.1 A grid (deci-amps, `Nat`), every operation rounds toward zero, and the
safety factor is a per-mille ratio so that
`budget = group_max × safety_factor` is the grid value
`group_max_dA * safety_factor_milli / 1000`. -/

/-- Allocator input for one peer: identity, liveness and demand fields
plus the reported pilot, in deci-amps. -/
structure AllocPeerIn where
  device_id : String
  online : Bool
  /-- `vehicle == 1`. -/
  vehicle : Bool
  /-- `state` indicates a charge-permitting state. -/
  chargePermitting : Bool
  pilot_dA : Option Nat
deriving DecidableEq

/-- Group configuration consumed by the allocator, on the 0.1 A grid. -/
structure AllocConfig where
  group_max_dA : Nat
  /-- `safety_factor` scaled by 1000 (a float in [0,1] in the spec). -/
  safety_factor_milli : Nat
  /-- `failsafe_peer_assumed_current_a`. -/
  assumed_offline_dA : Nat
  /-- per-peer minimum current, default 6.0 A = 60. -/
  min_dA : Nat
  /-- the group's per-node cap, when configured. -/
  per_node_cap_dA : Option Nat
deriving DecidableEq

/-- One allocation entry: peer id, target current in deci-amps, reason. -/
structure AllocOut where
  id : String
  target_dA : Nat
  reason : String
deriving DecidableEq

/-- A peer demands if it is online AND `vehicle == 1` AND its state
permits charging. -/
def demands (p : AllocPeerIn) : Bool :=
  p.online && p.vehicle && p.chargePermitting

/-- `group_max_current_a × safety_factor` on the 0.1 A grid, rounded
toward zero. -/
def budget_dA (cfg : AllocConfig) : Nat :=
  cfg.group_max_dA * cfg.safety_factor_milli / 1000

/-- `reserve = card(N_off) × failsafe_peer_assumed_current_a`. -/
def reserve_dA (cfg : AllocConfig) (peers : List AllocPeerIn) : Nat :=
  (peers.filter (fun p => !p.online)).length * cfg.assumed_offline_dA

/-- `I_avail = max(0, budget − reserve)` (`Nat` subtraction truncates at
zero). -/
def avail_dA (cfg : AllocConfig) (peers : List AllocPeerIn) : Nat :=
  budget_dA cfg - reserve_dA cfg peers

/-- A demanding peer's maximum: its reported pilot, else the group's
per-node cap if configured, else `group_max_current_a`. -/
def maxFor (cfg : AllocConfig) (p : AllocPeerIn) : Nat :=
  p.pilot_dA.getD (cfg.per_node_cap_dA.getD cfg.group_max_dA)

/-- Insert into a list sorted lexicographically by `device_id`. -/
def insertByDeviceId (p : AllocPeerIn) : List AllocPeerIn → List AllocPeerIn
  | [] => [p]
  | q :: rest =>
    if p.device_id ≤ q.device_id then p :: q :: rest
    else q :: insertByDeviceId p rest

/-- Sort peers lexicographically by `device_id` (insertion sort; the spec
assumes `device_id` values are distinct, so stability is irrelevant). -/
def sortByDeviceId : List AllocPeerIn → List AllocPeerIn
  | [] => []
  | p :: rest => insertByDeviceId p (sortByDeviceId rest)

/-- Working entry of the surplus-distribution phase: the peer, the current
it has been granted so far and its cap. -/
structure Grant where
  peer : AllocPeerIn
  given : Nat
  maxc : Nat
deriving DecidableEq

/-- Total current granted so far, in deci-amps. -/
def totalGiven (gs : List Grant) : Nat :=
  (gs.map (fun g => g.given)).sum

/-- Peers still strictly below their cap. -/
def uncappedCount (gs : List Grant) : Nat :=
  (gs.filter (fun g => g.given < g.maxc)).length

/-- Give every uncapped peer `min share (cap − given)` more current;
return the new grants and the total amount handed out. -/
def addShare (share : Nat) : List Grant → List Grant × Nat
  | [] => ([], 0)
  | g :: rest =>
    if g.given < g.maxc then
      ({ g with given := g.given + min share (g.maxc - g.given) } :: (addShare share rest).1,
        min share (g.maxc - g.given) + (addShare share rest).2)
    else
      (g :: (addShare share rest).1, (addShare share rest).2)

/-- Iterated equal distribution of the remainder with per-peer caps:
each round splits the remainder equally among the uncapped peers
(`share = r / k`, rounded toward zero per the spec's numeric semantics),
caps them, and carries the surplus into the next round; it stops when no
uncapped peer is left or the grid share rounds to zero.  `fuel` bounds the
iteration; the sum invariant below holds for every fuel. -/
def waterfill : Nat → List Grant → Nat → List Grant × Nat
  | 0, gs, r => (gs, r)
  | fuel + 1, gs, r =>
    if uncappedCount gs = 0 then (gs, r)
    else if r / uncappedCount gs = 0 then (gs, r)
    else
      waterfill fuel (addShare (r / uncappedCount gs) gs).1
        (r - (addShare (r / uncappedCount gs) gs).2)

/-- Sufficient-budget branch (spec step 2): give each demanding peer its
minimum, then distribute the remainder equally with caps. -/
def equalShare (cfg : AllocConfig) (d : List AllocPeerIn) (avail : Nat) : List AllocOut :=
  let sumMin := d.length * cfg.min_dA
  let grants0 := d.map (fun p => Grant.mk p cfg.min_dA (maxFor cfg p))
  let w := waterfill (d.length + avail) grants0 (avail - sumMin)
  w.1.map (fun g =>
    AllocOut.mk g.peer.device_id g.given
      (if g.maxc ≤ g.given then "capped_at_max" else "equal_share"))

/-- Insufficient-budget branch (spec step 3): walk the demanding set in
lex order, grant the minimum while the remaining budget permits; peers
beyond that point get 0 with reason `starved_by_sort`. -/
def grantMinsWalk (cfg : AllocConfig) : Nat → List AllocPeerIn → List AllocOut
  | _, [] => []
  | b, p :: rest =>
    if cfg.min_dA ≤ b then
      AllocOut.mk p.device_id cfg.min_dA "min_guaranteed" ::
        grantMinsWalk cfg (b - cfg.min_dA) rest
    else
      (p :: rest).map (fun q => AllocOut.mk q.device_id 0 "starved_by_sort")

/-- Sum of the target currents of an allocation, in deci-amps. -/
def sumTargets (l : List AllocOut) : Nat :=
  (l.map (fun a => a.target_dA)).sum

/-- Shave 0.1 A from the last entry. -/
def shaveLast : List AllocOut → List AllocOut
  | [] => []
  | [a] => [{ a with target_dA := a.target_dA - 1 }]
  | a :: rest => a :: shaveLast rest

/-- The spec's final guard: if rounding pushed the sum over the budget,
shave 0.1 A from the last peer in lex order. -/
def shaveIfOver (b : Nat) (l : List AllocOut) : List AllocOut :=
  if sumTargets l ≤ b then l else shaveLast l

/-- The full allocation map: zero entries for non-demanding peers
(offline peers are the reserve, online peers without demand get
`no_demand`), and the Equal-Share-With-Minimums result for the demanding
set, sorted by `device_id`. -/
def allocate (cfg : AllocConfig) (peers : List AllocPeerIn) : List AllocOut :=
  let avail := avail_dA cfg peers
  let d := sortByDeviceId (peers.filter demands)
  let nonDemandOut := (peers.filter (fun p => !demands p)).map (fun p =>
    AllocOut.mk p.device_id 0 (if p.online then "no_demand" else "offline_reserved"))
  let dOut :=
    if d.length * cfg.min_dA ≤ avail then equalShare cfg d avail
    else grantMinsWalk cfg avail d
  shaveIfOver (budget_dA cfg) dOut ++ nonDemandOut

/-! ## Concrete sample states used by witnesses and counterexamples -/

/-- A cached discovered peer. -/
def samplePeer : DiscoveredPeer :=
  ⟨"openevse-7856.local", "openevse-7856", "192.168.1.20", 80, [], 900⟩

/-- A task state with a nonempty, timestamped snapshot and a query in
flight since `millis() = 5000`. -/
def timeoutState : DiscTaskState :=
  { cachedPeers := [samplePeer], lastDiscovery := 900, cacheTtl := 60000,
    cacheValid := true, poll_interval_ms := 2000, discovery_interval_ms := 10000,
    last_discovery_time := 5000, query_timeout_ms := 5000, active_query := true,
    query_start_time := 5000, query_in_progress := true, discovery_count := 1,
    last_result_count := 1 }

/-- A task state with no query in flight. -/
def idleState : DiscTaskState :=
  { timeoutState with active_query := false, query_in_progress := false }

/-- A completed query's result list: the same instance answering twice
(two interfaces) and one record carrying no name at all. -/
def sampleResults : List MdnsResult :=
  [⟨some "openevse-7856", none, none, 80, []⟩,
   ⟨some "openevse-7856", none, none, 8080, []⟩,
   ⟨none, none, none, 0, []⟩]

/-- The single peer surviving deduplication of `sampleResults` at
`millis() = 4242`. -/
def samplePeer42 : DiscoveredPeer :=
  ⟨"openevse-7856.local", "openevse-7856", "", 80, [], 4242⟩

end OpenEVSE

namespace OpenEVSE

/-! ## Helper lemmas: registry -/

theorem saveGroupPeers_fst_groupPeers (st : Registry) (saveOk : Bool) :
    (saveGroupPeers st saveOk).1.groupPeers = st.groupPeers := by
  unfold saveGroupPeers
  by_cases h : st.groupPeersDirty <;> cases saveOk <;> simp [h]

theorem addGroupPeer_of_not_mem (st : Registry) (h : String) (saveOk : Bool)
    (hn : h ∉ st.groupPeers) :
    (addGroupPeer st h saveOk).1.groupPeers = st.groupPeers ++ [h] ∧
    (addGroupPeer st h saveOk).2 = true := by
  have hc : st.groupPeers.contains h = false := by
    simpa using hn
  unfold addGroupPeer
  rw [hc]
  simp [saveGroupPeers_fst_groupPeers]

theorem addGroupPeer_of_mem (st : Registry) (h : String) (saveOk : Bool)
    (hm : h ∈ st.groupPeers) :
    addGroupPeer st h saveOk = (st, false) := by
  have hc : st.groupPeers.contains h = true := by simpa using hm
  unfold addGroupPeer
  rw [hc]
  simp

theorem eraseFirst_eq_none_iff (l : List String) (h : String) :
    eraseFirst l h = none ↔ h ∉ l := by
  induction l with
  | nil => simp [eraseFirst]
  | cons p rest ih =>
    by_cases hp : p = h
    · simp [eraseFirst, hp]
    · simp [eraseFirst, hp, ih, Ne.symm hp]

theorem eraseFirst_append_singleton (l : List String) (h : String) (hn : h ∉ l) :
    eraseFirst (l ++ [h]) h = some l := by
  induction l with
  | nil => simp [eraseFirst]
  | cons p rest ih =>
    have hp : p ≠ h := fun e => hn (by rw [e]; exact List.mem_cons_self h rest)
    have hn' : h ∉ rest := fun hm => hn (List.mem_cons_of_mem p hm)
    simp [eraseFirst, hp, ih hn']

theorem eraseFirst_mem_decomp (l : List String) (h : String) (hm : h ∈ l) :
    ∃ l1 l2, l = l1 ++ h :: l2 ∧ h ∉ l1 ∧ eraseFirst l h = some (l1 ++ l2) := by
  induction l with
  | nil => cases hm
  | cons p rest ih =>
    by_cases hp : p = h
    · exact ⟨[], rest, by simp [hp], by simp, by simp [eraseFirst, hp]⟩
    · have hm' : h ∈ rest := by
        rcases List.mem_cons.mp hm with he | hr
        · exact absurd he.symm hp
        · exact hr
      obtain ⟨l1, l2, he, hn1, hef⟩ := ih hm'
      refine ⟨p :: l1, l2, by simp [he], ?_, by simp [eraseFirst, hp, hef]⟩
      simp only [List.mem_cons, not_or]
      exact ⟨fun e => hp e.symm, hn1⟩

theorem removeGroupPeer_of_not_mem (st : Registry) (h : String) (saveOk : Bool)
    (hn : h ∉ st.groupPeers) :
    removeGroupPeer st h saveOk = (st, false) := by
  unfold removeGroupPeer
  rw [(eraseFirst_eq_none_iff st.groupPeers h).mpr hn]

theorem removeGroupPeer_of_eraseFirst (st : Registry) (h : String) (saveOk : Bool)
    (l : List String) (he : eraseFirst st.groupPeers h = some l) :
    (removeGroupPeer st h saveOk).1.groupPeers = l ∧
    (removeGroupPeer st h saveOk).2 = true := by
  unfold removeGroupPeer
  rw [he]
  simp [saveGroupPeers_fst_groupPeers]

theorem addGroupPeer_saved_not_dirty (st : Registry) (h : String)
    (hn : h ∉ st.groupPeers) :
    (addGroupPeer st h true).1.groupPeersDirty = false := by
  have hc : st.groupPeers.contains h = false := by simpa using hn
  unfold addGroupPeer
  rw [hc]
  simp [saveGroupPeers]

/-! ## Claim theorems: peer registry and its HTTP surface -/

/-- C2 (code bug at the failing input): starting from a file system whose
live path holds the complete old peer document, the save sequence of
`saveGroupPeers` reaches, after its first two mutations (temp write, then
`LittleFS.remove` of the live path), a state in which the live path holds
no document at all — a power loss there loses both the old and the new
peer list, although the code's own comment calls the following rename an
atomic replace and the spec requires atomicity against power loss. -/
theorem saveGroupPeers_crash_window (old newDoc : List String) :
    saveCrashState ⟨some old, none⟩ newDoc 2 = ⟨none, some newDoc⟩ := rfl

/-- C3 counterexample: the handler never consults the node's own host.
Taking the node's own host to be `openevse-self.local` (the handler's
behaviour is independent of that choice), a POST adding exactly that host
to an empty registry answers 200 `done` and appends it, where the claim
requires a 400 rejection. -/
theorem addPeer_accepts_own_host_cex :
    (handleLoadSharingPeersPost ⟨[], false⟩ (.host "openevse-self.local") true).2
      = ⟨200, "done"⟩ ∧
    (handleLoadSharingPeersPost ⟨[], false⟩ (.host "openevse-self.local") true).1.groupPeers
      = ["openevse-self.local"] := ⟨rfl, rfl⟩

/-- C3 (amended): POST `/loadsharing/peers` rejects with 400 every body
whose trimmed host is empty, contains neither `.` nor `:`, or is already
present in the configured set (likewise invalid JSON and a missing host
key), leaving the registry unchanged; every other trimmed host — the
node's own host is not excluded — is appended to the configured set, a
durable save runs before the handler returns (clearing the dirty flag
when the file system succeeds), and the answer is 200 `done`. -/
theorem handleLoadSharingPeersPost_spec (st : Registry) (h0 : String) (saveOk : Bool) :
    ((trimString h0).isEmpty = true ∨ hostHasDotOrColon (trimString h0) = false ∨
        trimString h0 ∈ st.groupPeers →
      (handleLoadSharingPeersPost st (.host h0) saveOk).1 = st ∧
      (handleLoadSharingPeersPost st (.host h0) saveOk).2.code = 400) ∧
    ((trimString h0).isEmpty = false → hostHasDotOrColon (trimString h0) = true →
      trimString h0 ∉ st.groupPeers →
      (handleLoadSharingPeersPost st (.host h0) saveOk).1.groupPeers
          = st.groupPeers ++ [trimString h0] ∧
      (handleLoadSharingPeersPost st (.host h0) saveOk).2 = ⟨200, "done"⟩ ∧
      (saveOk = true →
        (handleLoadSharingPeersPost st (.host h0) saveOk).1.groupPeersDirty = false)) ∧
    handleLoadSharingPeersPost st .invalidJson saveOk = (st, ⟨400, "Invalid JSON"⟩) ∧
    handleLoadSharingPeersPost st .missingHost saveOk
        = (st, ⟨400, "Missing required host parameter"⟩) := by
  refine ⟨?_, ?_, rfl, rfl⟩
  · intro hrej
    unfold handleLoadSharingPeersPost
    cases hE : (trimString h0).isEmpty with
    | true => simp [hE]
    | false =>
      cases hF : hostHasDotOrColon (trimString h0) with
      | false => simp [hE, hF]
      | true =>
        have hm : trimString h0 ∈ st.groupPeers := by
          rcases hrej with h | h | h
          · rw [hE] at h; cases h
          · rw [hF] at h; cases h
          · exact h
        simp [hE, hF, addGroupPeer_of_mem st _ saveOk hm]
  · intro hE hF hn
    obtain ⟨hp, hb⟩ := addGroupPeer_of_not_mem st (trimString h0) saveOk hn
    refine ⟨?_, ?_, ?_⟩
    · unfold handleLoadSharingPeersPost
      simp [hE, hF, hb, hp]
    · unfold handleLoadSharingPeersPost
      simp [hE, hF, hb]
    · intro hs
      subst hs
      unfold handleLoadSharingPeersPost
      simp [hE, hF, hb, addGroupPeer_saved_not_dirty st _ hn]

/-- C3 witness: adding host `" evse.local "` (trimmed to `evse.local`) to
an empty registry succeeds with 200 and persists. -/
theorem handleLoadSharingPeersPost_spec_witness :
    (handleLoadSharingPeersPost ⟨[], false⟩ (.host " evse.local ") true).1.groupPeers
        = (Registry.mk [] false).groupPeers ++ [trimString " evse.local "] ∧
    (handleLoadSharingPeersPost ⟨[], false⟩ (.host " evse.local ") true).2 = ⟨200, "done"⟩ ∧
    (true = true →
      (handleLoadSharingPeersPost ⟨[], false⟩ (.host " evse.local ") true).1.groupPeersDirty
        = false) :=
  (handleLoadSharingPeersPost_spec ⟨[], false⟩ " evse.local " true).2.1
    (by decide) (by decide) (by simp)

/-- C4 counterexample: the registry holds `Peer.Local`; a DELETE for
`peer.local` — a case-insensitive match, which the claim says must be
removed with 200 — answers 404 and leaves the set unchanged, because
`removeGroupPeer` compares hostnames exactly (Arduino `String::==`). -/
theorem removeGroupPeer_case_sensitive_cex :
    hostEqCaseInsensitive "Peer.Local" "peer.local" = true ∧
    handleLoadSharingPeersDeleteWithHost ⟨["Peer.Local"], false⟩ "peer.local" true
      = (⟨["Peer.Local"], false⟩, ⟨404, "Peer not found"⟩) := ⟨rfl, rfl⟩

/-- C4 (amended): DELETE `/loadsharing/peers/host` removes exactly the
first configured entry that matches `host` case-SENSITIVELY and answers
200 `done`; when no exact match exists it answers 404 and leaves the set
unchanged. -/
theorem removeGroupPeer_exact_spec (st : Registry) (h : String) (saveOk : Bool) :
    (h ∈ st.groupPeers →
      ∃ l1 l2, st.groupPeers = l1 ++ h :: l2 ∧ h ∉ l1 ∧
        (handleLoadSharingPeersDeleteWithHost st h saveOk).1.groupPeers = l1 ++ l2 ∧
        (handleLoadSharingPeersDeleteWithHost st h saveOk).2 = ⟨200, "done"⟩) ∧
    (h ∉ st.groupPeers →
      handleLoadSharingPeersDeleteWithHost st h saveOk = (st, ⟨404, "Peer not found"⟩)) := by
  constructor
  · intro hm
    obtain ⟨l1, l2, he, hn1, hef⟩ := eraseFirst_mem_decomp st.groupPeers h hm
    obtain ⟨hp, hb⟩ := removeGroupPeer_of_eraseFirst st h saveOk (l1 ++ l2) hef
    refine ⟨l1, l2, he, hn1, ?_, ?_⟩
    · unfold handleLoadSharingPeersDeleteWithHost
      simp [hb, hp]
    · unfold handleLoadSharingPeersDeleteWithHost
      simp [hb]
  · intro hn
    unfold handleLoadSharingPeersDeleteWithHost
    simp [removeGroupPeer_of_not_mem st h saveOk hn]

/-- C4 witness: deleting the exactly matching host `a.local` succeeds. -/
theorem removeGroupPeer_exact_spec_witness :
    ∃ l1 l2, (Registry.mk ["a.local"] false).groupPeers = l1 ++ "a.local" :: l2 ∧
      "a.local" ∉ l1 ∧
      (handleLoadSharingPeersDeleteWithHost ⟨["a.local"], false⟩ "a.local" true).1.groupPeers
        = l1 ++ l2 ∧
      (handleLoadSharingPeersDeleteWithHost ⟨["a.local"], false⟩ "a.local" true).2
        = ⟨200, "done"⟩ :=
  (removeGroupPeer_exact_spec ⟨["a.local"], false⟩ "a.local" true).1 (by simp)

/-- C5: for a registry not containing `h`, `addGroupPeer h` followed by
`removeGroupPeer h` restores the configured peer list exactly, whatever
the file system answered to the two saves. -/
theorem add_then_remove_roundtrip (st : Registry) (h : String) (s1 s2 : Bool)
    (hn : h ∉ st.groupPeers) :
    ((removeGroupPeer (addGroupPeer st h s1).1 h s2).1).groupPeers = st.groupPeers := by
  obtain ⟨hp, _⟩ := addGroupPeer_of_not_mem st h s1 hn
  have hef : eraseFirst ((addGroupPeer st h s1).1).groupPeers h = some st.groupPeers := by
    rw [hp]
    exact eraseFirst_append_singleton st.groupPeers h hn
  exact (removeGroupPeer_of_eraseFirst _ h s2 st.groupPeers hef).1

/-- C5 witness: add then remove of `b.local` over `[a.local]`. -/
theorem add_then_remove_roundtrip_witness :
    ((removeGroupPeer (addGroupPeer ⟨["a.local"], false⟩ "b.local" true).1 "b.local" true).1).groupPeers
      = (Registry.mk ["a.local"] false).groupPeers :=
  add_then_remove_roundtrip ⟨["a.local"], false⟩ "b.local" true true (by decide)

/-- C6 counterexample: with the durable save failing (`saveOk = false`),
adding `a.local` to an empty registry still reports success — the
operation returns `true` and the POST handler answers 200 `done` — so the
persistence failure is NOT returned to the caller, contrary to the
claim (the in-memory mutation part of the claim does hold). -/
theorem persist_failure_not_returned_cex :
    (addGroupPeer ⟨[], false⟩ "a.local" false).2 = true ∧
    (addGroupPeer ⟨[], false⟩ "a.local" false).1.groupPeers = ["a.local"] ∧
    (addGroupPeer ⟨[], false⟩ "a.local" false).1.groupPeersDirty = true ∧
    (handleLoadSharingPeersPost ⟨[], false⟩ (.host "a.local") false).2 = ⟨200, "done"⟩ :=
  ⟨rfl, rfl, rfl, rfl⟩

/-- C6 (amended): when the durable write fails during Add or Remove, the
in-memory peer set still reflects the requested mutation and the registry
stays dirty, but the failure is not surfaced: both operations report
success to their caller. -/
theorem persistFailure_silent_success (st : Registry) (h : String) :
    (h ∉ st.groupPeers →
      addGroupPeer st h false = (⟨st.groupPeers ++ [h], true⟩, true)) ∧
    (h ∈ st.groupPeers →
      ∃ l, eraseFirst st.groupPeers h = some l ∧
        removeGroupPeer st h false = (⟨l, true⟩, true)) := by
  constructor
  · intro hn
    have hc : st.groupPeers.contains h = false := by simpa using hn
    unfold addGroupPeer
    rw [hc]
    simp [saveGroupPeers]
  · intro hm
    obtain ⟨l1, l2, he, hn1, hef⟩ := eraseFirst_mem_decomp st.groupPeers h hm
    refine ⟨l1 ++ l2, hef, ?_⟩
    unfold removeGroupPeer
    rw [hef]
    simp [saveGroupPeers]

/-- C6 witness: a failed save during an add of `y.local`. -/
theorem persistFailure_silent_success_witness :
    addGroupPeer ⟨["x.local"], false⟩ "y.local" false
      = (⟨(Registry.mk ["x.local"] false).groupPeers ++ ["y.local"], true⟩, true) :=
  (persistFailure_silent_success ⟨["x.local"], false⟩ "y.local").1 (by decide)

/-! ## Helper lemmas: discovery deduplication -/

theorem dedup_hostname_not_mem_seen (now : Nat) (rs : List MdnsResult) :
    ∀ (seen : List String) (p : DiscoveredPeer),
      p ∈ dedupByHostname now rs seen → p.hostname ∉ seen := by
  induction rs with
  | nil =>
    intro seen p hp
    simp [dedupByHostname] at hp
  | cons r rest ih =>
    intro seen p hp
    cases hq : mkPeer now r with
    | none =>
      simp only [dedupByHostname, hq] at hp
      exact ih seen p hp
    | some q =>
      simp only [dedupByHostname, hq] at hp
      cases hc : seen.contains q.hostname with
      | true =>
        rw [hc] at hp
        simp at hp
        exact ih seen p hp
      | false =>
        rw [hc] at hp
        simp at hp
        rcases hp with rfl | hp'
        · simpa using hc
        · have hns := ih (q.hostname :: seen) p hp'
          intro hmem
          exact hns (List.mem_cons_of_mem _ hmem)

theorem dedup_hostnames_nodup (now : Nat) (rs : List MdnsResult) :
    ∀ seen : List String,
      ((dedupByHostname now rs seen).map (fun p => p.hostname)).Nodup := by
  induction rs with
  | nil => intro seen; simp [dedupByHostname]
  | cons r rest ih =>
    intro seen
    cases hq : mkPeer now r with
    | none =>
      simp only [dedupByHostname, hq]
      exact ih seen
    | some q =>
      simp only [dedupByHostname, hq]
      cases hc : seen.contains q.hostname with
      | true =>
        simp only [if_true]
        exact ih seen
      | false =>
        simp only [Bool.false_eq_true, if_false, List.map_cons, List.nodup_cons]
        refine ⟨?_, ih _⟩
        intro hmem
        obtain ⟨p, hp, he⟩ := List.mem_map.mp hmem
        have hns := dedup_hostname_not_mem_seen now rest (q.hostname :: seen) p hp
        exact hns (he ▸ List.mem_cons_self _ _)

theorem dedup_first_occurrence (now : Nat) (rs : List MdnsResult) :
    ∀ (seen : List String) (p : DiscoveredPeer),
      p ∈ dedupByHostname now rs seen →
      (rs.filterMap (mkPeer now)).find? (fun q => q.hostname == p.hostname) = some p := by
  induction rs with
  | nil =>
    intro seen p hp
    simp [dedupByHostname] at hp
  | cons r rest ih =>
    intro seen p hp
    cases hq : mkPeer now r with
    | none =>
      simp only [dedupByHostname, hq] at hp
      simp only [List.filterMap_cons, hq]
      exact ih seen p hp
    | some q =>
      simp only [dedupByHostname, hq] at hp
      simp only [List.filterMap_cons, hq]
      cases hc : seen.contains q.hostname with
      | true =>
        rw [hc] at hp
        simp at hp
        have hqm : q.hostname ∈ seen := by simpa using hc
        have hne : q.hostname ≠ p.hostname := by
          intro he
          exact dedup_hostname_not_mem_seen now rest seen p hp (he ▸ hqm)
        rw [List.find?_cons_of_neg _ (by simpa using hne)]
        exact ih seen p hp
      | false =>
        rw [hc] at hp
        simp at hp
        rcases hp with rfl | hp'
        · rw [List.find?_cons_of_pos _ (by simp)]
        · have hns := dedup_hostname_not_mem_seen now rest (q.hostname :: seen) p hp'
          have hne : q.hostname ≠ p.hostname := by
            intro he
            exact hns (he ▸ List.mem_cons_self _ _)
          rw [List.find?_cons_of_neg _ (by simpa using hne)]
          exact ih (q.hostname :: seen) p hp'

theorem loop_snd_poll_interval (st : DiscTaskState) (now : Nat)
    (outcome : QueryPollOutcome) (startOk : Bool) :
    (loop st now outcome startOk).2 = st.poll_interval_ms := by
  unfold loop pollAsyncQuery cleanupQuery startAsyncQuery
  cases outcome <;> by_cases hP : st.query_in_progress <;>
    by_cases hA : st.active_query <;> cases startOk <;>
    simp [hP, hA] <;> (repeat' split) <;> simp

/-! ## Claim theorems: discovery task -/

/-- C7 counterexample: a query times out (started at 5000, polled at
11000, timeout 5 s) while the snapshot holds one peer stamped 900.  The
claim says the snapshot is replaced by an empty, freshly timestamped
result; the code leaves the old nonempty snapshot and its old timestamp
untouched and merely abandons the query. -/
theorem loop_timeout_stale_snapshot_cex :
    (loop timeoutState 11000 .pending true).1.cachedPeers = [samplePeer] ∧
    (loop timeoutState 11000 .pending true).1.lastDiscovery = 900 ∧
    (loop timeoutState 11000 .pending true).1.query_in_progress = false ∧
    (loop timeoutState 11000 .pending true).2 = 2000 := by
  refine ⟨?_, ?_, ?_, ?_⟩ <;> decide

/-- C7 (amended): a discovery cycle that completes with an empty result
list does swap in an empty, freshly timestamped snapshot; but a cycle
that ends in a query timeout, and a cycle whose query fails to start
(`mdns_query_async_new` returns no handle), leave the previous snapshot —
contents, timestamp and validity — untouched; in every case the loop
survives and schedules its next wake after `_poll_interval_ms`. -/
theorem loop_failure_semantics (st : DiscTaskState) (now : Nat) (startOk : Bool) :
    (st.query_in_progress = true → st.active_query = true →
      (loop st now (.complete []) startOk).1.cachedPeers = [] ∧
      (loop st now (.complete []) startOk).1.lastDiscovery = now ∧
      (loop st now (.complete []) startOk).1.cacheValid = true ∧
      (loop st now (.complete []) startOk).1.query_in_progress = false) ∧
    (st.query_in_progress = true →
      usub now st.query_start_time > st.query_timeout_ms →
      (loop st now .pending startOk).1.cachedPeers = st.cachedPeers ∧
      (loop st now .pending startOk).1.lastDiscovery = st.lastDiscovery ∧
      (loop st now .pending startOk).1.cacheValid = st.cacheValid ∧
      (loop st now .pending startOk).1.query_in_progress = false) ∧
    (st.query_in_progress = false → startOk = false →
      ∀ outcome : QueryPollOutcome,
      (loop st now outcome startOk).1.cachedPeers = st.cachedPeers ∧
      (loop st now outcome startOk).1.lastDiscovery = st.lastDiscovery ∧
      (loop st now outcome startOk).1.cacheValid = st.cacheValid ∧
      (loop st now outcome startOk).1.query_in_progress = false) ∧
    (∀ outcome : QueryPollOutcome,
      (loop st now outcome startOk).2 = st.poll_interval_ms) := by
  refine ⟨?_, ?_, ?_, fun outcome => loop_snd_poll_interval st now outcome startOk⟩
  · intro hP hA
    simp [loop, pollAsyncQuery, hP, hA, dedupByHostname]
  · intro hP ht
    by_cases hA : st.active_query <;>
      simp [loop, pollAsyncQuery, cleanupQuery, hP, hA, ht]
  · intro hP hS outcome
    subst hS
    simp only [loop, hP, Bool.false_eq_true, if_false]
    split
    · simp [startAsyncQuery]
    · simp [hP]

/-- C7 witness: the three failure modes concretely — empty completion
and timeout at the in-flight state `timeoutState` polled at 11000 ms,
and a failed query start at the idle state `idleState`. -/
theorem loop_failure_semantics_witness :
    ((loop timeoutState 11000 (.complete []) true).1.cachedPeers = [] ∧
     (loop timeoutState 11000 (.complete []) true).1.lastDiscovery = 11000 ∧
     (loop timeoutState 11000 (.complete []) true).1.cacheValid = true ∧
     (loop timeoutState 11000 (.complete []) true).1.query_in_progress = false) ∧
    ((loop timeoutState 11000 .pending true).1.cachedPeers = timeoutState.cachedPeers ∧
     (loop timeoutState 11000 .pending true).1.lastDiscovery = timeoutState.lastDiscovery ∧
     (loop timeoutState 11000 .pending true).1.cacheValid = timeoutState.cacheValid ∧
     (loop timeoutState 11000 .pending true).1.query_in_progress = false) ∧
    ((loop idleState 11000 .pending false).1.cachedPeers = idleState.cachedPeers ∧
     (loop idleState 11000 .pending false).1.lastDiscovery = idleState.lastDiscovery ∧
     (loop idleState 11000 .pending false).1.cacheValid = idleState.cacheValid ∧
     (loop idleState 11000 .pending false).1.query_in_progress = false) :=
  ⟨(loop_failure_semantics timeoutState 11000 true).1 rfl rfl,
   (loop_failure_semantics timeoutState 11000 true).2.1 rfl (by decide),
   (loop_failure_semantics idleState 11000 false).2.2.1 rfl rfl .pending⟩

/-- C8: `triggerDiscovery` only rewrites the schedule — it equals the
state with `_last_discovery_time := 0` and nothing else changed, it is
idempotent, a loop pass over an in-flight query behaves exactly as
without the trigger (the trigger neither cancels, restarts nor replaces
the query; it only keeps the schedule pinned), and with no query in
flight the very next loop wake starts a discovery cycle. -/
theorem triggerDiscovery_schedule_only (st : DiscTaskState) :
    triggerDiscovery (triggerDiscovery st) = triggerDiscovery st ∧
    triggerDiscovery st = { st with last_discovery_time := 0 } ∧
    (st.query_in_progress = true → ∀ (now : Nat) (outcome : QueryPollOutcome) (startOk : Bool),
      loop (triggerDiscovery st) now outcome startOk
        = (triggerDiscovery (loop st now outcome startOk).1,
           (loop st now outcome startOk).2)) ∧
    (st.query_in_progress = false → ∀ (now : Nat) (outcome : QueryPollOutcome) (startOk : Bool),
      (loop (triggerDiscovery st) now outcome startOk).1.discovery_count
        = st.discovery_count + 1) := by
  refine ⟨rfl, rfl, ?_, ?_⟩
  · intro hP now outcome startOk
    cases outcome <;> by_cases hA : st.active_query <;>
      by_cases ht : usub now st.query_start_time > st.query_timeout_ms <;>
      simp [loop, pollAsyncQuery, cleanupQuery, triggerDiscovery, hP, hA, ht]
  · intro hP now outcome startOk
    cases hS : startOk <;>
      simp [loop, triggerDiscovery, startAsyncQuery, hP]

/-- C8 witness: triggering at an in-flight state and at an idle state. -/
theorem triggerDiscovery_schedule_only_witness :
    (loop (triggerDiscovery timeoutState) 11000 .pending true
      = (triggerDiscovery (loop timeoutState 11000 .pending true).1,
         (loop timeoutState 11000 .pending true).2)) ∧
    (loop (triggerDiscovery idleState) 11000 .pending true).1.discovery_count
      = idleState.discovery_count + 1 :=
  ⟨(triggerDiscovery_schedule_only timeoutState).2.2.1 rfl 11000 .pending true,
   (triggerDiscovery_schedule_only idleState).2.2.2 rfl 11000 .pending true⟩

/-- C9: when a query completes, the converted results are swapped into
the snapshot together with the completion timestamp; every hostname
occurs at most once in the new snapshot, and each surviving entry is
exactly the first record in result order that yields its hostname
(first occurrence wins, carrying its fields). -/
theorem pollAsyncQuery_dedup_first_wins (st : DiscTaskState) (now : Nat)
    (results : List MdnsResult) (hA : st.active_query = true) :
    (pollAsyncQuery st now (.complete results)).1.cachedPeers
        = dedupByHostname now results [] ∧
    (pollAsyncQuery st now (.complete results)).1.lastDiscovery = now ∧
    (pollAsyncQuery st now (.complete results)).1.cacheValid = true ∧
    (pollAsyncQuery st now (.complete results)).2 = true ∧
    ((dedupByHostname now results []).map (fun p => p.hostname)).Nodup ∧
    (∀ p ∈ dedupByHostname now results [],
      (results.filterMap (mkPeer now)).find? (fun q => q.hostname == p.hostname)
        = some p) := by
  refine ⟨?_, ?_, ?_, ?_, dedup_hostnames_nodup now results [],
          fun p hp => dedup_first_occurrence now results [] p hp⟩ <;>
    simp [pollAsyncQuery, hA]

/-- C9 witness: `sampleResults` (one instance answering twice plus a
nameless record) collapses to the single peer `samplePeer42`, which
carries the fields of the first record. -/
theorem pollAsyncQuery_dedup_first_wins_witness :
    (pollAsyncQuery timeoutState 4242 (.complete sampleResults)).1.cachedPeers
        = dedupByHostname 4242 sampleResults [] ∧
    ((dedupByHostname 4242 sampleResults []).map (fun p => p.hostname)).Nodup ∧
    (sampleResults.filterMap (mkPeer 4242)).find?
        (fun q => q.hostname == samplePeer42.hostname) = some samplePeer42 := by
  have h := pollAsyncQuery_dedup_first_wins timeoutState 4242 sampleResults rfl
  exact ⟨h.1, h.2.2.2.2.1, h.2.2.2.2.2 samplePeer42 (by decide)⟩

/-- C10: at a fixed `millis()` reading, `isCacheValid` answers `true`
exactly when `cacheTimeRemaining` is positive — the two cache-TTL
operations are interchangeable. -/
theorem isCacheValid_iff_timeRemaining_pos (st : DiscTaskState) (now : Nat) :
    isCacheValid st now = true ↔ 0 < cacheTimeRemaining st now := by
  unfold isCacheValid cacheTimeRemaining
  cases hv : st.cacheValid
  · simp
  · simp only [Bool.not_true, Bool.false_eq_true, if_false, decide_eq_true_eq]
    split <;> omega

/-! ## Helper lemmas: allocator -/

theorem sumTargets_nil : sumTargets [] = 0 := rfl

theorem sumTargets_cons (a : AllocOut) (l : List AllocOut) :
    sumTargets (a :: l) = a.target_dA + sumTargets l := by
  simp [sumTargets]

theorem sumTargets_append (l1 l2 : List AllocOut) :
    sumTargets (l1 ++ l2) = sumTargets l1 + sumTargets l2 := by
  simp [sumTargets]

theorem uncappedCount_cons_pos (g : Grant) (rest : List Grant) (hg : g.given < g.maxc) :
    uncappedCount (g :: rest) = uncappedCount rest + 1 := by
  simp [uncappedCount, List.filter_cons, hg]

theorem uncappedCount_cons_neg (g : Grant) (rest : List Grant) (hg : ¬g.given < g.maxc) :
    uncappedCount (g :: rest) = uncappedCount rest := by
  simp [uncappedCount, List.filter_cons, hg]

theorem addShare_fst_sum (share : Nat) (gs : List Grant) :
    totalGiven (addShare share gs).1 = totalGiven gs + (addShare share gs).2 := by
  induction gs with
  | nil => simp [addShare, totalGiven]
  | cons g rest ih =>
    by_cases hg : g.given < g.maxc <;>
      simp only [addShare, hg, if_true, if_false, totalGiven, List.map_cons,
        List.sum_cons] at ih ⊢ <;> omega

theorem addShare_snd_le (share : Nat) (gs : List Grant) :
    (addShare share gs).2 ≤ share * uncappedCount gs := by
  induction gs with
  | nil => simp [addShare]
  | cons g rest ih =>
    by_cases hg : g.given < g.maxc
    · rw [uncappedCount_cons_pos g rest hg]
      have hstep : (addShare share (g :: rest)).2
          = min share (g.maxc - g.given) + (addShare share rest).2 := by
        simp [addShare, hg]
      rw [hstep, Nat.mul_succ]
      calc min share (g.maxc - g.given) + (addShare share rest).2
          ≤ share + share * uncappedCount rest :=
            Nat.add_le_add (Nat.min_le_left _ _) ih
        _ = share * uncappedCount rest + share := Nat.add_comm _ _
    · rw [uncappedCount_cons_neg g rest hg]
      have hstep : (addShare share (g :: rest)).2 = (addShare share rest).2 := by
        simp [addShare, hg]
      rw [hstep]
      exact ih

theorem waterfill_totalGiven_le (fuel : Nat) :
    ∀ (gs : List Grant) (r : Nat),
      totalGiven (waterfill fuel gs r).1 ≤ totalGiven gs + r := by
  induction fuel with
  | zero =>
    intro gs r
    simp [waterfill]
  | succ fuel ih =>
    intro gs r
    by_cases hk : uncappedCount gs = 0
    · simp [waterfill, hk]
    · by_cases hs : r / uncappedCount gs = 0
      · simp [waterfill, hk, hs]
      · have hw : waterfill (fuel + 1) gs r
            = waterfill fuel (addShare (r / uncappedCount gs) gs).1
                (r - (addShare (r / uncappedCount gs) gs).2) := by
          simp [waterfill, hk, hs]
        have ha : (addShare (r / uncappedCount gs) gs).2 ≤ r :=
          le_trans (addShare_snd_le _ _) (Nat.div_mul_le_self r _)
        have h1 := ih (addShare (r / uncappedCount gs) gs).1
          (r - (addShare (r / uncappedCount gs) gs).2)
        have h2 := addShare_fst_sum (r / uncappedCount gs) gs
        rw [hw]
        omega

theorem totalGiven_map_min (cfg : AllocConfig) (d : List AllocPeerIn) :
    totalGiven (d.map (fun p => Grant.mk p cfg.min_dA (maxFor cfg p)))
      = d.length * cfg.min_dA := by
  induction d with
  | nil => simp [totalGiven]
  | cons p rest ih =>
    simp only [List.map_cons, totalGiven, List.sum_cons, List.length_cons] at ih ⊢
    rw [Nat.succ_mul]
    omega

theorem sumTargets_map_given (gs : List Grant) :
    sumTargets (gs.map (fun g =>
      AllocOut.mk g.peer.device_id g.given
        (if g.maxc ≤ g.given then "capped_at_max" else "equal_share")))
      = totalGiven gs := by
  induction gs with
  | nil => rfl
  | cons g rest ih =>
    simp only [List.map_cons, sumTargets, totalGiven, List.sum_cons] at ih ⊢
    omega

theorem equalShare_sum_le (cfg : AllocConfig) (d : List AllocPeerIn) (avail : Nat)
    (h : d.length * cfg.min_dA ≤ avail) :
    sumTargets (equalShare cfg d avail) ≤ avail := by
  simp only [equalShare]
  rw [sumTargets_map_given]
  have h1 := waterfill_totalGiven_le (d.length + avail)
    (d.map (fun p => Grant.mk p cfg.min_dA (maxFor cfg p)))
    (avail - d.length * cfg.min_dA)
  rw [totalGiven_map_min] at h1
  omega

theorem sumTargets_zeros (l : List AllocPeerIn) :
    sumTargets (l.map (fun q => AllocOut.mk q.device_id 0 "starved_by_sort")) = 0 := by
  induction l with
  | nil => rfl
  | cons p rest ih =>
    rw [List.map_cons, sumTargets_cons, ih]

theorem grantMinsWalk_sum_le (cfg : AllocConfig) (b : Nat) (l : List AllocPeerIn) :
    sumTargets (grantMinsWalk cfg b l) ≤ b := by
  induction l generalizing b with
  | nil => simp [grantMinsWalk, sumTargets]
  | cons p rest ih =>
    by_cases hb : cfg.min_dA ≤ b
    · have hstep : grantMinsWalk cfg b (p :: rest)
          = AllocOut.mk p.device_id cfg.min_dA "min_guaranteed"
              :: grantMinsWalk cfg (b - cfg.min_dA) rest := by
        simp [grantMinsWalk, hb]
      rw [hstep, sumTargets_cons]
      have := ih (b - cfg.min_dA)
      dsimp only
      omega
    · have hstep : grantMinsWalk cfg b (p :: rest)
          = (p :: rest).map (fun q => AllocOut.mk q.device_id 0 "starved_by_sort") := by
        simp [grantMinsWalk, hb]
      rw [hstep, sumTargets_zeros]
      exact Nat.zero_le b

theorem sumTargets_nonDemand_zero (l : List AllocPeerIn) :
    sumTargets (l.map (fun p =>
      AllocOut.mk p.device_id 0 (if p.online then "no_demand" else "offline_reserved")))
      = 0 := by
  induction l with
  | nil => rfl
  | cons p rest ih =>
    rw [List.map_cons, sumTargets_cons, ih]

theorem shaveIfOver_of_le (b : Nat) (l : List AllocOut) (h : sumTargets l ≤ b) :
    shaveIfOver b l = l := by
  simp [shaveIfOver, h]

/-! ## Claim theorem: allocator invariant -/

/-- C1: for every group configuration and every peer population (online
flags, demand flags, pilots), the computed allocation's total target
current never exceeds `group_max_current_a × safety_factor` — stated
exactly on the grid (`sumTargets` is in deci-amps, the safety factor in
per-mille, so multiplying the sum by 1000 compares the two sides of
`Σ target ≤ group_max × safety_factor` without rounding). -/
theorem allocate_sum_le_budget (cfg : AllocConfig) (peers : List AllocPeerIn) :
    sumTargets (allocate cfg peers) ≤ budget_dA cfg ∧
    sumTargets (allocate cfg peers) * 1000 ≤ cfg.group_max_dA * cfg.safety_factor_milli := by
  have hmain : sumTargets (allocate cfg peers) ≤ budget_dA cfg := by
    simp only [allocate]
    rw [sumTargets_append, sumTargets_nonDemand_zero]
    have havail : avail_dA cfg peers ≤ budget_dA cfg := Nat.sub_le _ _
    by_cases hd : (sortByDeviceId (peers.filter demands)).length * cfg.min_dA
        ≤ avail_dA cfg peers
    · rw [if_pos hd]
      have hsum := equalShare_sum_le cfg (sortByDeviceId (peers.filter demands))
        (avail_dA cfg peers) hd
      rw [shaveIfOver_of_le _ _ (le_trans hsum havail)]
      omega
    · rw [if_neg hd]
      have hsum := grantMinsWalk_sum_le cfg (avail_dA cfg peers)
        (sortByDeviceId (peers.filter demands))
      rw [shaveIfOver_of_le _ _ (le_trans hsum havail)]
      omega
  refine ⟨hmain, ?_⟩
  rw [budget_dA] at hmain
  exact (Nat.le_div_iff_mul_le (by norm_num)).mp hmain

end OpenEVSE
